import Mathlib

/-!
Verification of the inline live-snippet renderer (`src/stories/components/Editor.tsx`).

This file shallowly embeds the `Editor` React component and proves the
specification's claims about it.  The component:

* configures the Monaco TypeScript language service once at module load
  (`languages.typescript.typescriptDefaults.setCompilerOptions({...})`);
* classifies a content block: if `className === "lang-tsx" && typeof code === "string"`
  it renders a live Monaco editor, otherwise a static `<span>`;
* seeds per-instance editable state with `React.useState(children)` and keeps the
  Monaco value controlled (`value={code}`, `onChange={newCode => setCode(newCode)}`);
* sizes the editor by `code.split(/\r\n|\r|\n/).length * 19 + 1`;
* passes fixed editor options (hidden vertical scrollbar, no minimap, no folding,
  theme `vs-dark`).
-/

namespace Snippet

/-! Block payloads and classification (Editor.tsx line 21) -/

/-- A React child payload as the classifier sees it: a string node, some
non-string node (an element, a number, ...), or absent (`children` omitted). -/
inductive Payload where
  | str (s : String)
  | nonString
  | absent
deriving DecidableEq, Repr

/-- Embeds `typeof code === "string"` from Editor.tsx line 21. -/
def Payload.isStringValue : Payload → Bool
  | .str _ => true
  | .nonString => false
  | .absent => false

/-- The two rendering strategies. -/
inductive RenderMode where
  | live
  | staticText
deriving DecidableEq, Repr

/-- Embeds the branch condition of Editor.tsx line 21:
`if (className === "lang-tsx" && typeof code === "string")`.
`className` is the block's tag (an optional prop), `code` the block payload. -/
def classify (className : Option String) (code : Payload) : RenderMode :=
  if className = some "lang-tsx" ∧ code.isStringValue then .live else .staticText

/-! The line-break split and the sizing formula (Editor.tsx line 22) -/

/-- Embeds JavaScript `code.split(/\r\n|\r|\n/)` on the character list of the
buffer.  JavaScript regex alternation is leftmost-first, so at a `"\r\n"` pair
the branch `\r\n` matches before `\r` alone; a lone `\r` or `\n` is a
separator by itself.  `String.prototype.split` yields the list of segments
between separator matches, including leading/trailing empty segments
(so the empty string splits into the single segment `[]`). -/
def splitLineBreaks : List Char → List (List Char)
  | [] => [[]]
  | '\r' :: '\n' :: rest => [] :: splitLineBreaks rest
  | '\r' :: rest => [] :: splitLineBreaks rest
  | '\n' :: rest => [] :: splitLineBreaks rest
  | c :: rest =>
    match splitLineBreaks rest with
    | [] => [[c]]
    | seg :: segs => (c :: seg) :: segs

/-- The number of line breaks in a buffer, counting a `"\r\n"` pair as one
break, matching the separator matches of the regex `/\r\n|\r|\n/`. -/
def countBreaks : List Char → Nat
  | [] => 0
  | '\r' :: '\n' :: rest => countBreaks rest + 1
  | '\r' :: rest => countBreaks rest + 1
  | '\n' :: rest => countBreaks rest + 1
  | _ :: rest => countBreaks rest

/-- The line-height constant `19` of the sizing formula in Editor.tsx line 22. -/
def lineHeightConstant : Nat := 19

/-- The additive padding constant `1` of the sizing formula in Editor.tsx line 22. -/
def paddingConstant : Nat := 1

/-- Embeds Editor.tsx line 22 on character lists:
`const height = code.split(/\r\n|\r|\n/).length * 19 + 1`. -/
def heightL (cs : List Char) : Nat :=
  (splitLineBreaks cs).length * 19 + 1

/-- The computed height of a live editor for the buffer string `code`. -/
def height (code : String) : Nat :=
  heightL code.data

/-! Per-instance editable state (Editor.tsx lines 20, 33-35) -/

/-- One live editor instance: the block's original immutable text and the
per-instance editable buffer `code` created by `React.useState(children)`. -/
structure Instance where
  blockText : String
  code : String
deriving DecidableEq, Repr

/-- Mounting an instance on a block seeds `code` from the block's text
(`React.useState(children)`, Editor.tsx line 20). -/
def mount (text : String) : Instance :=
  { blockText := text, code := text }

/-- A user edit: `onChange={newCode => setCode(newCode)}` (Editor.tsx line 35)
replaces the editable buffer and touches nothing else. -/
def edit (i : Instance) (newCode : String) : Instance :=
  { i with code := newCode }

/-- The buffer the editor displays: `value={code}` (Editor.tsx line 34),
always the current editable state. -/
def displayedValue (i : Instance) : String :=
  i.code

/-- The instance's height, recomputed from the current buffer on every render
(Editor.tsx line 22 reads the state variable `code`). -/
def instanceHeight (i : Instance) : Nat :=
  height i.code

/-! Monaco editor options (Editor.tsx lines 39-52)

Monaco's option records are open records of optional fields; a field the
source does not set is `none` and the engine's default applies.  Defaults in
Monaco: `scrollbar.vertical` and `scrollbar.horizontal` default to `"auto"`
(a scrollbar appears when content overflows). -/

/-- The scrollbar sub-record of Monaco's editor options.  The source sets
only the four vertical fields (Editor.tsx lines 40-45). -/
structure ScrollbarOptions where
  vertical : Option String := none
  verticalHasArrows : Option Bool := none
  verticalScrollbarSize : Option Nat := none
  verticalSliderSize : Option Nat := none
  horizontal : Option String := none
  horizontalHasArrows : Option Bool := none
  horizontalScrollbarSize : Option Nat := none
  horizontalSliderSize : Option Nat := none
deriving DecidableEq, Repr

/-- The fields of Monaco's editor options that Editor.tsx lines 39-52 touch,
each optional with `none` meaning "left at the engine default". -/
structure EditorOptions where
  scrollbar : ScrollbarOptions := {}
  scrollBeyondLastLine : Option Bool := none
  theme : Option String := none
  minimapEnabled : Option Bool := none
  folding : Option Bool := none
deriving DecidableEq, Repr

/-- The literal options record of Editor.tsx lines 39-52. -/
def editorOptions : EditorOptions :=
  { scrollbar :=
      { vertical := some "hidden"
        verticalHasArrows := some false
        verticalScrollbarSize := some 0
        verticalSliderSize := some 0 }
    scrollBeyondLastLine := some false
    theme := some "vs-dark"
    minimapEnabled := some false
    folding := some false }

/-- Claimed chrome suppression, written from the claim's words for comparison
with the source record `editorOptions`: both the vertical AND the horizontal
scrollbar hidden, minimap disabled, folding disabled, dark theme. -/
def claimedChromeSuppression (o : EditorOptions) : Prop :=
  o.scrollbar.vertical = some "hidden" ∧
  o.scrollbar.horizontal = some "hidden" ∧
  o.minimapEnabled = some false ∧
  o.folding = some false ∧
  o.theme = some "vs-dark"

instance (o : EditorOptions) : Decidable (claimedChromeSuppression o) := by
  unfold claimedChromeSuppression; infer_instance

/-! Engine (TypeScript language service) configuration (Editor.tsx lines 5-13) -/

/-- Values of `monaco.languages.typescript.ScriptTarget` used here. -/
inductive ScriptTarget where
  | ES2017
  | ESNext
deriving DecidableEq, Repr

/-- Values of `monaco.languages.typescript.JsxEmit` used here. -/
inductive JsxEmit where
  | Preserve
  | React
deriving DecidableEq, Repr

/-- Values of `monaco.languages.typescript.ModuleResolutionKind` used here. -/
inductive ModuleResolutionKind where
  | Classic
  | NodeJs
deriving DecidableEq, Repr

/-- Values of `monaco.languages.typescript.ModuleKind` used here. -/
inductive ModuleKind where
  | CommonJS
  | ESNextModule
deriving DecidableEq, Repr

/-- The record passed to `setCompilerOptions` (Editor.tsx lines 5-13). -/
structure CompilerOptions where
  target : ScriptTarget
  allowNonTsExtensions : Bool
  jsx : JsxEmit
  moduleResolution : ModuleResolutionKind
  moduleKind : ModuleKind
  noEmit : Bool
  strict : Bool
deriving DecidableEq, Repr

/-- The literal options record of Editor.tsx lines 5-13:
`{ target: ESNext, allowNonTsExtensions: true, jsx: React,
   moduleResolution: NodeJs, module: CommonJS, noEmit: true, strict: true }`. -/
def compilerOptions : CompilerOptions :=
  { target := .ESNext
    allowNonTsExtensions := true
    jsx := .React
    moduleResolution := .NodeJs
    moduleKind := .CommonJS
    noEmit := true
    strict := true }

/-- Observable events of the renderer process, in program order:
the one engine-configuration call and editor-instance mounts. -/
inductive Event where
  | configure (o : CompilerOptions)
  | mountInstance (id : Nat)
deriving DecidableEq, Repr

/-- Whether an event is an engine-configuration call. -/
def Event.isConfigure : Event → Bool
  | .configure _ => true
  | .mountInstance _ => false

/-- The side effects of evaluating the module body of Editor.tsx.  The only
top-level statement with an effect is the single `setCompilerOptions` call
(lines 5-13); the component definition itself is pure.  JavaScript evaluates
a module body exactly once per process, before any of its exports is used. -/
def moduleTopLevelEffects : List Event :=
  [Event.configure compilerOptions]

/-- A whole-process event trace: the module body's effects, then the mounts
of the `Editor` instances (which can only happen after the module that
defines `Editor` has been evaluated). -/
def processTrace (mounts : List Nat) : List Event :=
  moduleTopLevelEffects ++ mounts.map Event.mountInstance

/-! Rendered output (Editor.tsx lines 24-61) -/

/-- The rendered output of the `Editor` component: either the static
`<span style={{ whiteSpace: "pre", display: "inline-block" }}>` wrapping the
block text verbatim (lines 57-61), or the `<MonacoEditor>` pane (lines 24-55). -/
inductive DisplayNode where
  | span (whiteSpace : String) (display : String) (content : String)
  | editorPane (value : String) (paneHeight : Nat) (options : EditorOptions)
deriving DecidableEq, Repr

/-- Whether a rendered node offers an editing affordance: only the Monaco
pane is editable, the static span is not. -/
def DisplayNode.isEditable : DisplayNode → Bool
  | .span .. => false
  | .editorPane .. => true

/-- Embeds the static branch (Editor.tsx lines 57-61): the block text wrapped
in a span with `whiteSpace: "pre"` and `display: "inline-block"`, unchanged. -/
def renderStatic (text : String) : DisplayNode :=
  .span "pre" "inline-block" text

/-- Embeds the live branch (Editor.tsx lines 24-55): a Monaco pane showing
the current buffer, sized by line 22's formula, with the fixed options. -/
def renderLive (i : Instance) : DisplayNode :=
  .editorPane (displayedValue i) (instanceHeight i) editorOptions

/-! Sibling instances (Editor.tsx line 20)

`React.useState` allocates one state cell per mounted component instance.
We model the host's state store as a map from instance identifiers to
buffers; `setCode` of one instance writes exactly that instance's cell. -/

/-- The setCode call of instance `a` (Editor.tsx line 35) in a document
with several mounted instances: a point update of instance `a`'s cell. -/
def editBuffer (bufs : Nat → String) (a : Nat) (s : String) : Nat → String :=
  fun i => if i = a then s else bufs i

/-- Joins a list of lines with a fixed line-ending separator.  Used to state
that the sizing formula is insensitive to the line-ending convention. -/
def joinL (sep : List Char) : List (List Char) → List Char
  | [] => []
  | [l] => l
  | l :: ls => l ++ (sep ++ joinL sep ls)

/-! Auxiliary lemmas about the line-break split -/

theorem splitLineBreaks_ne_nil (cs : List Char) : splitLineBreaks cs ≠ [] := by
  induction cs using splitLineBreaks.induct <;> simp_all [splitLineBreaks]

theorem length_splitLineBreaks (cs : List Char) :
    (splitLineBreaks cs).length = countBreaks cs + 1 := by
  induction cs using splitLineBreaks.induct <;> simp_all [splitLineBreaks, countBreaks]

theorem countBreaks_cons_of_ne (c : Char) (t : List Char) (h1 : c ≠ '\r') (h2 : c ≠ '\n') :
    countBreaks (c :: t) = countBreaks t := by
  cases t <;> simp_all [countBreaks]

theorem countBreaks_append_of_noBreak (l cs : List Char)
    (h : ∀ c ∈ l, c ≠ '\r' ∧ c ≠ '\n') :
    countBreaks (l ++ cs) = countBreaks cs := by
  induction l with
  | nil => rfl
  | cons c t ih =>
    have hc := h c (by simp)
    rw [List.cons_append, countBreaks_cons_of_ne c _ hc.1 hc.2]
    exact ih fun d hd => h d (by simp [hd])

theorem countBreaks_lf (cs : List Char) : countBreaks ('\n' :: cs) = countBreaks cs + 1 := by
  cases cs <;> simp [countBreaks]

theorem countBreaks_crlf (cs : List Char) :
    countBreaks ('\r' :: '\n' :: cs) = countBreaks cs + 1 := by
  simp [countBreaks]

theorem countBreaks_cr (cs : List Char) (h : cs.head? ≠ some '\n') :
    countBreaks ('\r' :: cs) = countBreaks cs + 1 := by
  cases cs with
  | nil => simp [countBreaks]
  | cons d ds =>
    simp only [List.head?] at h
    have hd : d ≠ '\n' := by intro he; exact h (by rw [he])
    simp [countBreaks, hd]

theorem countBreaks_joinL_lf (l : List Char) (ls : List (List Char))
    (h : ∀ m ∈ l :: ls, ∀ c ∈ m, c ≠ '\r' ∧ c ≠ '\n') :
    countBreaks (joinL ['\n'] (l :: ls)) = ls.length := by
  induction ls generalizing l with
  | nil =>
    have := countBreaks_append_of_noBreak l [] (h l (by simp))
    simpa [joinL] using this
  | cons l2 ls2 ih =>
    have hstep : joinL ['\n'] (l :: l2 :: ls2) = l ++ ('\n' :: joinL ['\n'] (l2 :: ls2)) := by
      simp [joinL]
    rw [hstep, countBreaks_append_of_noBreak _ _ (h l (by simp)), countBreaks_lf,
      ih l2 (fun m hm => h m (by simp at hm ⊢; tauto))]
    simp

theorem countBreaks_joinL_crlf (l : List Char) (ls : List (List Char))
    (h : ∀ m ∈ l :: ls, ∀ c ∈ m, c ≠ '\r' ∧ c ≠ '\n') :
    countBreaks (joinL ['\r', '\n'] (l :: ls)) = ls.length := by
  induction ls generalizing l with
  | nil =>
    have := countBreaks_append_of_noBreak l [] (h l (by simp))
    simpa [joinL] using this
  | cons l2 ls2 ih =>
    have hstep : joinL ['\r', '\n'] (l :: l2 :: ls2)
        = l ++ ('\r' :: '\n' :: joinL ['\r', '\n'] (l2 :: ls2)) := by
      simp [joinL]
    rw [hstep, countBreaks_append_of_noBreak _ _ (h l (by simp)), countBreaks_crlf,
      ih l2 (fun m hm => h m (by simp at hm ⊢; tauto))]
    simp

theorem head_joinL_cr (l : List Char) (ls : List (List Char))
    (h : ∀ m ∈ l :: ls, ∀ c ∈ m, c ≠ '\r' ∧ c ≠ '\n') :
    (joinL ['\r'] (l :: ls)).head? ≠ some '\n' := by
  cases l with
  | cons c t =>
    have hc := h (c :: t) (by simp) c (by simp)
    cases ls <;> simp [joinL, hc.2]
  | nil =>
    cases ls <;> simp [joinL]

theorem countBreaks_joinL_cr (l : List Char) (ls : List (List Char))
    (h : ∀ m ∈ l :: ls, ∀ c ∈ m, c ≠ '\r' ∧ c ≠ '\n') :
    countBreaks (joinL ['\r'] (l :: ls)) = ls.length := by
  induction ls generalizing l with
  | nil =>
    have := countBreaks_append_of_noBreak l [] (h l (by simp))
    simpa [joinL] using this
  | cons l2 ls2 ih =>
    have hstep : joinL ['\r'] (l :: l2 :: ls2) = l ++ ('\r' :: joinL ['\r'] (l2 :: ls2)) := by
      simp [joinL]
    have htail : ∀ m ∈ l2 :: ls2, ∀ c ∈ m, c ≠ '\r' ∧ c ≠ '\n' := by
      intro m hm; exact h m (by simp at hm ⊢; tauto)
    rw [hstep, countBreaks_append_of_noBreak _ _ (h l (by simp)),
      countBreaks_cr _ (head_joinL_cr l2 ls2 htail), ih l2 htail]
    simp

/-! Auxiliary lemmas about the process trace -/

theorem mounts_filter_configure (ms : List Nat) :
    (ms.map Event.mountInstance).filter Event.isConfigure = [] := by
  induction ms <;> simp_all [Event.isConfigure]

theorem processTrace_get_succ (ms : List Nat) (k : Nat) :
    (processTrace ms)[k + 1]? = (ms[k]?).map Event.mountInstance := by
  simp [processTrace, moduleTopLevelEffects, List.getElem?_map]

/-! Claim theorems -/

/-- C1, counterexample.  The claim says a block whose tag equals the live
marker but whose text is the empty string classifies as Static.  In the
source (Editor.tsx line 21) the condition is only
`className === "lang-tsx" && typeof code === "string"`; the empty string is a
string, so such a block classifies as Live, refuting the claim. -/
theorem classify_emptyText_liveTag_is_live :
    classify (some "lang-tsx") (Payload.str "") = RenderMode.live ∧
    classify (some "lang-tsx") (Payload.str "") ≠ RenderMode.staticText := by
  exact ⟨by decide, by decide⟩

/-- C1, amended.  A block is classified Live if and only if its tag equals
`"lang-tsx"` and its payload is a string value (of any length, the empty
string included); every other combination — unrecognized or absent tag,
non-string or absent payload — classifies as Static. -/
theorem classify_live_iff (tag : Option String) (code : Payload) :
    (classify tag code = RenderMode.live ↔
      tag = some "lang-tsx" ∧ ∃ s, code = Payload.str s) ∧
    (classify tag code = RenderMode.staticText ↔
      ¬ (tag = some "lang-tsx" ∧ ∃ s, code = Payload.str s)) := by
  cases code <;> constructor <;> simp [classify, Payload.isStringValue]

/-- C2.  For every buffer string, the computed height equals
(number of line breaks + 1) × lineHeightConstant + paddingConstant, and the
single-line buffer `"const a = 1;"` mounts with height
1 × lineHeightConstant + paddingConstant. -/
theorem height_eq_breaks_formula :
    (∀ code : String,
      height code = (countBreaks code.data + 1) * lineHeightConstant + paddingConstant) ∧
    instanceHeight (mount "const a = 1;") = 1 * lineHeightConstant + paddingConstant := by
  refine ⟨fun code => ?_, by decide⟩
  simp [height, heightL, length_splitLineBreaks, lineHeightConstant, paddingConstant]

/-- C3.  Replacing an instance's buffer by one with exactly one more line
break increases the computed height by exactly one lineHeightConstant, the
padding term unchanged; the buffer `"a\nb"` has height
2 × lineHeightConstant + paddingConstant and appending `"\nc"` yields
3 × lineHeightConstant + paddingConstant. -/
theorem height_monotone_in_breaks :
    (∀ (i : Instance) (s : String),
      countBreaks s.data = countBreaks i.code.data + 1 →
      instanceHeight (edit i s) = instanceHeight i + lineHeightConstant) ∧
    instanceHeight (mount "a\nb") = 2 * lineHeightConstant + paddingConstant ∧
    instanceHeight (edit (mount "a\nb") "a\nb\nc")
      = 3 * lineHeightConstant + paddingConstant := by
  refine ⟨fun i s h => ?_, by decide, by decide⟩
  simp only [instanceHeight, edit, height, heightL, length_splitLineBreaks,
    lineHeightConstant]
  omega

/-- C3, witness.  Concrete application: editing the instance mounted on
`"a\nb"` to the buffer `"a\nb\nc"` raises the height by one
lineHeightConstant. -/
theorem height_monotone_in_breaks_witness :
    instanceHeight (edit (mount "a\nb") "a\nb\nc")
      = instanceHeight (mount "a\nb") + lineHeightConstant :=
  height_monotone_in_breaks.1 (mount "a\nb") "a\nb\nc" (by decide)

/-- C4.  Immediately after mount the editable state equals the block's
original text byte for byte, and after every edit the displayed buffer is the
latest editable state while the original block text is untouched. -/
theorem editableState_seeded_and_controlled :
    (∀ t : String,
      (mount t).code = t ∧ displayedValue (mount t) = t ∧ (mount t).blockText = t) ∧
    (∀ (i : Instance) (s : String),
      (edit i s).code = s ∧ (edit i s).blockText = i.blockText ∧
      displayedValue (edit i s) = s) :=
  ⟨fun _ => ⟨rfl, rfl, rfl⟩, fun _ _ => ⟨rfl, rfl, rfl⟩⟩

/-- C5, counterexample.  The claim says the instance configuration suppresses
both the vertical and the horizontal scrollbar.  The options record of
Editor.tsx lines 39-52 sets only the vertical scrollbar fields; its
`horizontal` field is absent, so the horizontal scrollbar is left at the
engine default and the claimed configuration does not hold of the source
record. -/
theorem horizontal_scrollbar_not_suppressed :
    ¬ claimedChromeSuppression editorOptions ∧
    editorOptions.scrollbar.horizontal = none := by
  exact ⟨by decide, rfl⟩

/-- C5, amended.  Every Live instance is created with the fixed options
record: vertical scrollbar hidden with no arrows and zero scrollbar/slider
size, minimap disabled, code folding disabled, dark theme `"vs-dark"`, and no
scrolling beyond the last line; the horizontal scrollbar fields are not
configured and remain at the engine default.  The record is applied per
instance at creation. -/
theorem editorOptions_chrome :
    editorOptions.scrollbar.vertical = some "hidden" ∧
    editorOptions.scrollbar.verticalHasArrows = some false ∧
    editorOptions.scrollbar.verticalScrollbarSize = some 0 ∧
    editorOptions.scrollbar.verticalSliderSize = some 0 ∧
    editorOptions.minimapEnabled = some false ∧
    editorOptions.folding = some false ∧
    editorOptions.theme = some "vs-dark" ∧
    editorOptions.scrollBeyondLastLine = some false ∧
    editorOptions.scrollbar.horizontal = none ∧
    ∀ i : Instance,
      renderLive i = DisplayNode.editorPane (displayedValue i) (instanceHeight i)
        editorOptions := by
  exact ⟨rfl, rfl, rfl, rfl, rfl, rfl, rfl, rfl, rfl, fun _ => rfl⟩

/-- C6.  Static rendering is a pure total function: every string (the empty
string included) renders to the whitespace-preserving span
(`whiteSpace: "pre"`, `display: "inline-block"`) holding the text unchanged,
with no editing affordance; being a function of the text alone, two renders
of the same text are identical. -/
theorem renderStatic_pure_total_verbatim :
    ∀ text : String,
      renderStatic text = DisplayNode.span "pre" "inline-block" text ∧
      (renderStatic text).isEditable = false :=
  fun _ => ⟨rfl, rfl⟩

/-- C7.  In every process trace, the engine-configuration call appears
exactly once — with the record fixing target ESNext, module CommonJS, module
resolution NodeJs, JSX React, noEmit and strict — and it precedes every
instance mount. -/
theorem engineConfig_once_before_mounts (ms : List Nat) :
    (processTrace ms).filter Event.isConfigure = [Event.configure compilerOptions] ∧
    (∀ (i j : Nat) (o : CompilerOptions) (n : Nat),
      (processTrace ms)[i]? = some (Event.configure o) →
      (processTrace ms)[j]? = some (Event.mountInstance n) → i < j) ∧
    compilerOptions.target = ScriptTarget.ESNext ∧
    compilerOptions.moduleKind = ModuleKind.CommonJS ∧
    compilerOptions.moduleResolution = ModuleResolutionKind.NodeJs ∧
    compilerOptions.jsx = JsxEmit.React ∧
    compilerOptions.noEmit = true ∧
    compilerOptions.strict = true := by
  refine ⟨?_, ?_, rfl, rfl, rfl, rfl, rfl, rfl⟩
  · simp [processTrace, moduleTopLevelEffects, Event.isConfigure, mounts_filter_configure]
  · intro i j o n hi hj
    have hi0 : i = 0 := by
      cases i with
      | zero => rfl
      | succ k =>
        rw [processTrace_get_succ] at hi
        cases hms : ms[k]? <;> simp [hms] at hi
    have hj0 : j ≠ 0 := by
      intro hj0
      subst hj0
      simp [processTrace, moduleTopLevelEffects] at hj
    omega

/-- C7, witness.  Concrete application to the trace with one mounted
instance: the configuration event is the unique configure event and its index
0 precedes the mount's index 1. -/
theorem engineConfig_once_before_mounts_witness :
    (processTrace [3]).filter Event.isConfigure = [Event.configure compilerOptions] ∧
    (0 : Nat) < 1 :=
  ⟨(engineConfig_once_before_mounts [3]).1,
    (engineConfig_once_before_mounts [3]).2.1 0 1 compilerOptions 3
      (by decide) (by decide)⟩

/-- C8.  Editing instance `a`'s buffer never changes a distinct instance
`b`'s buffer: the state store update of `setCode` is a point update of `a`'s
cell, leaving every other instance's cell untouched. -/
theorem instance_isolation (bufs : Nat → String) (a : Nat) (s : String) (b : Nat)
    (hba : b ≠ a) :
    editBuffer bufs a s b = bufs b ∧ editBuffer bufs a s a = s :=
  ⟨by simp [editBuffer, hba], by simp [editBuffer]⟩

/-- C8, witness.  Concrete application: editing instance 0 in a two-instance
document leaves instance 1's buffer unchanged while instance 0's buffer takes
the new text. -/
theorem instance_isolation_witness :
    editBuffer (fun _ => "orig") 0 "edited" 1 = (fun _ => "orig") 1 ∧
    editBuffer (fun _ => "orig") 0 "edited" 0 = "edited" :=
  instance_isolation (fun _ => "orig") 0 "edited" 1 (by decide)

/-- C10.  The split pattern counts a `"\r\n"` pair as a single line break, so
a buffer assembled from break-free lines has the same computed height whether
the lines are joined with `"\r\n"`, `"\r"`, or `"\n"`; concretely
`"a\r\nb"` and `"a\nb"` have equal heights, `['\r', '\n']` holds exactly one
break, and the empty buffer still yields one line of height. -/
theorem lineEnding_insensitive_height :
    (∀ (l : List Char) (ls : List (List Char)),
      (∀ m ∈ l :: ls, ∀ c ∈ m, c ≠ '\r' ∧ c ≠ '\n') →
      heightL (joinL ['\r', '\n'] (l :: ls)) = heightL (joinL ['\n'] (l :: ls)) ∧
      heightL (joinL ['\r'] (l :: ls)) = heightL (joinL ['\n'] (l :: ls))) ∧
    height "a\r\nb" = height "a\nb" ∧
    countBreaks ['\r', '\n'] = 1 ∧
    height "" = 1 * lineHeightConstant + paddingConstant := by
  refine ⟨fun l ls h => ⟨?_, ?_⟩, by decide, by decide, by decide⟩
  · simp [heightL, length_splitLineBreaks, countBreaks_joinL_crlf l ls h,
      countBreaks_joinL_lf l ls h]
  · simp [heightL, length_splitLineBreaks, countBreaks_joinL_cr l ls h,
      countBreaks_joinL_lf l ls h]

/-- C10, witness.  Concrete application to the two break-free lines `a` and
`b`: joining them with each of the three line endings yields the same
height. -/
theorem lineEnding_insensitive_height_witness :
    heightL (joinL ['\r', '\n'] [['a'], ['b']]) = heightL (joinL ['\n'] [['a'], ['b']]) ∧
    heightL (joinL ['\r'] [['a'], ['b']]) = heightL (joinL ['\n'] [['a'], ['b']]) :=
  lineEnding_insensitive_height.1 ['a'] [['b']] (by decide)

end Snippet
